import Mathlib

/-!
Verification of the batch-ingestion coordinator and REST kind handlers of a
vector-enabled object store (a single storage shard).

Shallow embedding, translated from the source:
  - putObjectBatch / addReferencesBatch / mergeDocFromBatchReference
    (shard batch coordinator, Go file in src/unnamed/part_002);
  - the error-to-HTTP-status switches, parseIncludeParam, derefBool,
    getThings and getActions of src/adapters/handlers/rest/handlers_kinds.go.

Collaborators that are not part of the repository under study (the bolt KV
store, putObjectInTx, mergeObjectInTx, uuid parsing, the vector index, the
kinds manager) are modelled as oracles in an environment record, with the
transactional all-or-nothing contract of a bolt Batch transaction made
explicit: the writes of a transaction whose function returns an error are
rolled back.  Machine integers (docIDs, indices) are modelled as Nat; the
float32 vector payload is opaque and modelled as List Int.
-/

namespace Weaviate

/-- Entity kind tag, {Thing, Action}. -/
inductive Kind where
  | thing
  | action
deriving DecidableEq, Repr

/-- Minimal model of storobj.Object: its uuid (ID) and its vector.  The uuid
is modelled as a Nat token; the float32 vector as an opaque List Int. -/
structure Object where
  ID : Nat
  vector : List Int
deriving DecidableEq, Repr

/-- Model of kinds.BatchReference: the source (From) kind, class and target
uuid that mergeDocFromBatchReference reads, plus an opaque target beacon. -/
structure BatchReference where
  fromKind : Kind
  fromClass : String
  fromTargetID : Nat
  toBeacon : Nat
deriving DecidableEq, Repr

/-- Model of kinds.MergeDocument as built by mergeDocFromBatchReference. -/
structure MergeDocument where
  kind : Kind
  cls : String
  ID : Nat
  updateTime : Nat
  references : List BatchReference
deriving DecidableEq, Repr

/-- Errors produced along the batch paths.  txWrap models
errors.Wrap(err, "bolt batch tx"); vectorAddErr models
errors.Wrap(err, "insert to vector index") recording the docID the
Add call was made with. -/
inductive Err where
  | invalidId (uuid : Nat)
  | marshalErr (uuid : Nat)
  | putObjectErr (uuid : Nat)
  | mergeErr (uuid : Nat)
  | txWrap (e : Err)
  | vectorAddErr (docID : Nat)
deriving DecidableEq, Repr

/-- Model of context.Context as far as the batch code could consume it: a
cancellation flag.  The source functions receive a ctx argument and never
consult it, which the embedding reproduces faithfully. -/
structure Ctx where
  cancelled : Bool
deriving DecidableEq, Repr

/-- Oracles for the collaborators of the shard batch code.  parseOk and
marshalOk model uuid.Parse and uuid.MarshalBinary on a given uuid; putOk,
allocDocID model putObjectInTx (per the spec: allocate a docID and write the
record inside the enclosing transaction); addOk models vectorIndex.Add;
mergeOk models mergeObjectInTx; now models time.Now().UnixNano(). -/
structure ShardEnv where
  parseOk : Nat → Bool
  marshalOk : Nat → Bool
  putOk : Object → Bool
  allocDocID : Object → Nat
  addOk : Nat → List Int → Bool
  mergeOk : MergeDocument → Bool
  now : Nat

/-- Observable shard state threaded through the batch operations: the
committed object records, counters of opened KV transactions and of
putObjectInTx / mergeObjectInTx calls, the log of vectorIndex.Add
invocations, the vector index contents, and the committed merge documents
of reference batches. -/
structure ShardState where
  store : List (Nat × Object)
  txCount : Nat
  putAttempts : Nat
  mergeAttempts : Nat
  addCalls : List (Nat × List Int)
  vecIndex : List (Nat × List Int)
  mergedDocs : List MergeDocument
deriving DecidableEq, Repr

/-- Lookup in a Go map modelled as an association list whose most recent
binding for a key stands first. -/
def mapLookup {β : Type} (k : Nat) : List (Nat × β) → Option β
  | [] => none
  | (k2, v) :: rest => if k = k2 then some v else mapLookup k rest

/-- Outcome of running the body of one bolt Batch transaction of
putObjectBatch over a chunk: on success the object records the transaction
wrote, on failure the first error; docs are the (uuid, docID) pairs pushed
into the shared docIDs map before the failure point (the Go map is not
rolled back with the transaction), most recent first; attempts counts the
putObjectInTx calls made. -/
structure ChunkResult where
  res : Except Err (List (Nat × Object))
  docs : List (Nat × Nat)
  attempts : Nat

/-- Body of the bolt Batch transaction of putObjectBatch over one chunk,
item by item: parse the uuid, marshal it, call putObjectInTx, record the
returned docID in the shared docIDs map; stop at the first error. -/
def putChunkTx (env : ShardEnv) : List Object → ChunkResult
  | [] => ⟨.ok [], [], 0⟩
  | o :: rest =>
    if env.parseOk o.ID = false then ⟨.error (.invalidId o.ID), [], 0⟩
    else if env.marshalOk o.ID = false then ⟨.error (.marshalErr o.ID), [], 0⟩
    else if env.putOk o = false then ⟨.error (.putObjectErr o.ID), [], 1⟩
    else
      let d := env.allocDocID o
      let r := putChunkTx env rest
      { res := match r.res with
          | .ok w => .ok ((o.ID, o) :: w)
          | .error e => .error e,
        docs := r.docs ++ [(o.ID, d)],
        attempts := r.attempts + 1 }

/-- The records a chunk transaction contributes to the object store: its
writes if the transaction function returned nil, nothing if it returned an
error (bolt rolls the transaction back). -/
def chunkCommitWrites (env : ShardEnv) (batch : List Object) : List (Nat × Object) :=
  match (putChunkTx env batch).res with
  | .ok w => w
  | .error _ => []

/-- The error entries recorded for an aborted chunk: the wrapped error at
every affected index base, base+1, ..., base+n-1. -/
def chunkErrBlock (base : Nat) (n : Nat) (e : Err) : List (Nat × Err) :=
  (List.range n).map (fun j => (base + j, Err.txWrap e))

/-- Accumulator of the batch coordinator: shard state plus the shared
docIDs and errs maps guarded by the coordinator mutex. -/
structure BatchAcc where
  st : ShardState
  docIDs : List (Nat × Nat)
  errs : List (Nat × Err)

/-- One phase-1 worker of putObjectBatch: run the chunk transaction;
count the transaction; publish the docID assignments; on success commit the
writes, on error record the wrapped error for every index of the chunk. -/
def applyPutChunk (env : ShardEnv) (base : Nat) (batch : List Object)
    (acc : BatchAcc) : BatchAcc :=
  let r := putChunkTx env batch
  { st := { acc.st with
      txCount := acc.st.txCount + 1,
      putAttempts := acc.st.putAttempts + r.attempts,
      store := acc.st.store ++ chunkCommitWrites env batch },
    docIDs := r.docs ++ acc.docIDs,
    errs := match r.res with
      | .ok _ => acc.errs
      | .error e => acc.errs ++ chunkErrBlock base batch.length e }

/-- Phase 1 of putObjectBatch: walk the input in steps of 30
(maxPerTransaction), handing each chunk objects[i : i+30] to a worker.
The fuel argument (instantiated with the input length) only bounds the
recursion; each step consumes at least one input element. -/
def phase1fuel (env : ShardEnv) : Nat → Nat → List Object → BatchAcc → BatchAcc
  | 0, _, _, acc => acc
  | _ + 1, _, [], acc => acc
  | fuel + 1, base, o :: rest, acc =>
    phase1fuel env fuel (base + 30) (rest.drop 29)
      (applyPutChunk env base (o :: rest.take 29) acc)

/-- The accumulator after phase 1 of putObjectBatch. -/
def phase1res (env : ShardEnv) (objects : List Object) (st : ShardState) : BatchAcc :=
  phase1fuel env objects.length 0 objects ⟨st, [], []⟩

/-- One phase-2 step of putObjectBatch at original index i: skip the index
if an error was recorded for it; otherwise look the docID up (Go map read,
zero value 0 when absent), invoke vectorIndex.Add(docID, vector) and on
failure record the wrapped error at index i. -/
def phase2Step (env : ShardEnv) (i : Nat) (o : Object) (acc : BatchAcc) : BatchAcc :=
  match mapLookup i acc.errs with
  | some _ => acc
  | none =>
    let d := (mapLookup o.ID acc.docIDs).getD 0
    let st2 := { acc.st with addCalls := acc.st.addCalls ++ [(d, o.vector)] }
    if env.addOk d o.vector then
      { acc with st :=
          { st2 with vecIndex := (d, o.vector) :: st2.vecIndex.filter (fun p => p.1 != d) } }
    else
      { acc with st := st2, errs := acc.errs ++ [(i, Err.vectorAddErr d)] }

/-- Phase 2 of putObjectBatch: iterate the original input with its indices
and dispatch the vector-index updates. -/
def phase2go (env : ShardEnv) : Nat → List Object → BatchAcc → BatchAcc
  | _, [], acc => acc
  | i, o :: rest, acc => phase2go env (i + 1) rest (phase2Step env i o acc)

/-- Shard.putObjectBatch: chunked transactional phase, then the
vector-index phase; returns the shard state and the per-index error map.
The ctx argument is received and, as in the source, never consulted. -/
def putObjectBatch (env : ShardEnv) (ctx : Ctx) (objects : List Object)
    (st : ShardState) : ShardState × List (Nat × Err) :=
  let acc1 := phase1res env objects st
  let acc2 := phase2go env 0 objects acc1
  (acc2.st, acc2.errs)

/-- mergeDocFromBatchReference: build the merge document of one batch
reference from its From source and the current time. -/
def mergeDocFromBatchReference (now : Nat) (ref : BatchReference) : MergeDocument :=
  { kind := ref.fromKind,
    cls := ref.fromClass,
    ID := ref.fromTargetID,
    updateTime := now,
    references := [ref] }

/-- Outcome of one bolt Batch transaction of addReferencesBatch over a
chunk: the merge documents applied on success, the first error on failure;
attempts counts the mergeObjectInTx calls made. -/
structure RefChunkResult where
  res : Except Err (List MergeDocument)
  attempts : Nat

/-- Body of the bolt Batch transaction of addReferencesBatch over one
chunk: parse the target uuid, marshal it, build the merge document and call
mergeObjectInTx; stop at the first error.  (The empty m.Lock(); m.Unlock()
critical section of the source has no observable effect and is omitted.) -/
def refChunkTx (env : ShardEnv) : List BatchReference → RefChunkResult
  | [] => ⟨.ok [], 0⟩
  | r :: rest =>
    if env.parseOk r.fromTargetID = false then ⟨.error (.invalidId r.fromTargetID), 0⟩
    else if env.marshalOk r.fromTargetID = false then ⟨.error (.marshalErr r.fromTargetID), 0⟩
    else
      let doc := mergeDocFromBatchReference env.now r
      if env.mergeOk doc = false then ⟨.error (.mergeErr r.fromTargetID), 1⟩
      else
        let rr := refChunkTx env rest
        { res := match rr.res with
            | .ok ds => .ok (doc :: ds)
            | .error e => .error e,
          attempts := rr.attempts + 1 }

/-- The merge documents a reference chunk transaction commits: all of them
if the transaction function returned nil, none if it errored. -/
def refChunkCommitDocs (env : ShardEnv) (batch : List BatchReference) : List MergeDocument :=
  match (refChunkTx env batch).res with
  | .ok ds => ds
  | .error _ => []

/-- Accumulator of addReferencesBatch: shard state plus the errs map. -/
structure RefAcc where
  st : ShardState
  errs : List (Nat × Err)

/-- One worker of addReferencesBatch: run the chunk transaction, count it,
commit the merge documents or record the wrapped error for every index of
the chunk. -/
def applyRefChunk (env : ShardEnv) (base : Nat) (batch : List BatchReference)
    (acc : RefAcc) : RefAcc :=
  let r := refChunkTx env batch
  { st := { acc.st with
      txCount := acc.st.txCount + 1,
      mergeAttempts := acc.st.mergeAttempts + r.attempts,
      mergedDocs := acc.st.mergedDocs ++ refChunkCommitDocs env batch },
    errs := match r.res with
      | .ok _ => acc.errs
      | .error e => acc.errs ++ chunkErrBlock base batch.length e }

/-- Chunk loop of addReferencesBatch, stepping the base index by 30
(maxPerTransaction).  The fuel argument only bounds the recursion. -/
def refPhasefuel (env : ShardEnv) : Nat → Nat → List BatchReference → RefAcc → RefAcc
  | 0, _, _, acc => acc
  | _ + 1, _, [], acc => acc
  | fuel + 1, base, r :: rest, acc =>
    refPhasefuel env fuel (base + 30) (rest.drop 29)
      (applyRefChunk env base (r :: rest.take 29) acc)

/-- Shard.addReferencesBatch: chunked transactional merge phase only; as the
source comments, adding references cannot alter a vector position, so there
is no vector-index phase.  The ctx argument is received and never
consulted, as in the source. -/
def addReferencesBatch (env : ShardEnv) (ctx : Ctx) (refs : List BatchReference)
    (st : ShardState) : ShardState × List (Nat × Err) :=
  let acc := refPhasefuel env refs.length 0 refs ⟨st, []⟩
  (acc.st, acc.errs)

/-- The chunk decomposition the batch loops perform: the list of
(start index, chunk) pairs, chunks of 30 consecutive items.  Used to state
the chunking properties; the fuel argument only bounds the recursion. -/
def chunkListF {α : Type} : Nat → Nat → List α → List (Nat × List α)
  | 0, _, _ => []
  | _ + 1, _, [] => []
  | fuel + 1, base, x :: rest =>
    (base, x :: rest.take 29) :: chunkListF fuel (base + 30) (rest.drop 29)

/-- The chunks of putObjectBatch and addReferencesBatch over an input list,
with their start offsets. -/
def chunkList {α : Type} (base : Nat) (l : List α) : List (Nat × List α) :=
  chunkListF l.length base l

/-! REST kind handlers (handlers_kinds.go). -/

/-- The runtime error kinds the handler switches distinguish: the typed
errors kinds.ErrNotFound, kinds.ErrInvalidUserInput, errors.Forbidden, and
any other error value. -/
inductive ErrK where
  | notFound
  | invalidUserInput
  | forbidden
  | generic
deriving DecidableEq, Repr, Fintype

/-- HTTP status of the error switch of addThing. -/
def addThingErrStatus : ErrK → Nat
  | .forbidden => 403
  | .invalidUserInput => 422
  | _ => 500

/-- HTTP status of the error switch of validateThing. -/
def validateThingErrStatus : ErrK → Nat
  | .forbidden => 403
  | .invalidUserInput => 422
  | _ => 500

/-- HTTP status of the error switch of addAction. -/
def addActionErrStatus : ErrK → Nat
  | .forbidden => 403
  | .invalidUserInput => 422
  | _ => 500

/-- HTTP status of the error switch of validateAction. -/
def validateActionErrStatus : ErrK → Nat
  | .forbidden => 403
  | .invalidUserInput => 422
  | _ => 500

/-- HTTP status of the error switch of updateThing. -/
def updateThingErrStatus : ErrK → Nat
  | .forbidden => 403
  | .invalidUserInput => 422
  | _ => 500

/-- HTTP status of the error switch of updateAction. -/
def updateActionErrStatus : ErrK → Nat
  | .forbidden => 403
  | .invalidUserInput => 422
  | _ => 500

/-- HTTP status of the error switch of patchThing (responders borrowed from
the update operation, statuses 403/422/500). -/
def patchThingErrStatus : ErrK → Nat
  | .forbidden => 403
  | .invalidUserInput => 422
  | _ => 500

/-- HTTP status of the error switch of patchAction. -/
def patchActionErrStatus : ErrK → Nat
  | .forbidden => 403
  | .invalidUserInput => 422
  | _ => 500

/-- HTTP status of the error switch of getThing. -/
def getThingErrStatus : ErrK → Nat
  | .forbidden => 403
  | .notFound => 404
  | _ => 500

/-- HTTP status of the error switch of getAction. -/
def getActionErrStatus : ErrK → Nat
  | .forbidden => 403
  | .notFound => 404
  | _ => 500

/-- HTTP status of the error switch of deleteThing. -/
def deleteThingErrStatus : ErrK → Nat
  | .forbidden => 403
  | .notFound => 404
  | _ => 500

/-- HTTP status of the error switch of deleteAction. -/
def deleteActionErrStatus : ErrK → Nat
  | .forbidden => 403
  | .notFound => 404
  | _ => 500

/-- HTTP status of the error switch of getThings (list). -/
def getThingsErrStatus : ErrK → Nat
  | .forbidden => 403
  | _ => 500

/-- HTTP status of the error switch of getActions (list). -/
def getActionsErrStatus : ErrK → Nat
  | .forbidden => 403
  | _ => 500

/-- HTTP status of the error switch of addThingReference: NotFound and
InvalidUserInput share the UnprocessableEntity responder. -/
def addThingReferenceErrStatus : ErrK → Nat
  | .forbidden => 403
  | .notFound => 422
  | .invalidUserInput => 422
  | _ => 500

/-- HTTP status of the error switch of addActionReference. -/
def addActionReferenceErrStatus : ErrK → Nat
  | .forbidden => 403
  | .notFound => 422
  | .invalidUserInput => 422
  | _ => 500

/-- HTTP status of the error switch of updateThingReferences. -/
def updateThingReferencesErrStatus : ErrK → Nat
  | .forbidden => 403
  | .notFound => 422
  | .invalidUserInput => 422
  | _ => 500

/-- HTTP status of the error switch of updateActionReferences. -/
def updateActionReferencesErrStatus : ErrK → Nat
  | .forbidden => 403
  | .notFound => 422
  | .invalidUserInput => 422
  | _ => 500

/-- HTTP status of the error switch of deleteThingReference: NotFound and
InvalidUserInput share the NotFound responder. -/
def deleteThingReferenceErrStatus : ErrK → Nat
  | .forbidden => 403
  | .notFound => 404
  | .invalidUserInput => 404
  | _ => 500

/-- HTTP status of the error switch of deleteActionReference. -/
def deleteActionReferenceErrStatus : ErrK → Nat
  | .forbidden => 403
  | .notFound => 404
  | .invalidUserInput => 404
  | _ => 500

/-- Modelled from the spec (for the amended claim, section 7 propagation
table): status pattern of the object create, validate, update and patch
handlers. -/
def specMutationStatus : ErrK → Nat
  | .forbidden => 403
  | .invalidUserInput => 422
  | _ => 500

/-- Modelled from the spec (for the amended claim): status pattern of the
object get and delete handlers. -/
def specReadStatus : ErrK → Nat
  | .forbidden => 403
  | .notFound => 404
  | _ => 500

/-- Modelled from the spec (for the amended claim): status pattern of the
list handlers. -/
def specListStatus : ErrK → Nat
  | .forbidden => 403
  | _ => 500

/-- Modelled from the spec (for the amended claim): status pattern of the
reference create and update handlers. -/
def specRefWriteStatus : ErrK → Nat
  | .forbidden => 403
  | .notFound => 422
  | .invalidUserInput => 422
  | _ => 500

/-- Modelled from the spec (for the amended claim): status pattern of the
reference delete handlers. -/
def specRefDeleteStatus : ErrK → Nat
  | .forbidden => 403
  | .notFound => 404
  | .invalidUserInput => 404
  | _ => 500

/-- traverser.UnderscoreProperties as far as parseIncludeParam sets it.
featureProjection models whether the FeatureProjection params pointer was
set (to an empty params value). -/
structure UnderscoreProperties where
  classification : Bool := false
  refMeta : Bool := false
  vector : Bool := false
  interpretation : Bool := false
  nearestNeighbors : Bool := false
  featureProjection : Bool := false
deriving DecidableEq, Repr

/-- Split a list of characters at commas, accumulating the current field in
reverse.  Models Go strings.Split(s, ",") including its empty-field
behaviour. -/
def splitCommaAux : List Char → List Char → List String
  | [], cur => [String.mk cur.reverse]
  | c :: rest, cur =>
    if c = ',' then String.mk cur.reverse :: splitCommaAux rest []
    else splitCommaAux rest (c :: cur)

/-- Go strings.Split(s, ","), written over the character list so that it
evaluates inside the kernel. -/
def splitComma (s : String) : List String :=
  splitCommaAux s.data []

/-- The switch body of parseIncludeParam over the comma-separated parts:
each recognized spelling sets its flags, the classification spellings set
RefMeta as well, and the first unrecognized part aborts with an error
carrying that part (fmt.Errorf unrecognized property). -/
def parseIncludeParts : List String → UnderscoreProperties → Except String UnderscoreProperties
  | [], out => .ok out
  | p :: rest, out =>
    if p = "_classification" ∨ p = "classification" then
      parseIncludeParts rest { out with classification := true, refMeta := true }
    else if p = "_interpretation" ∨ p = "interpretation" then
      parseIncludeParts rest { out with interpretation := true }
    else if p = "_nearestNeighbors" ∨ p = "nearestNeighbors" ∨ p = "nearestneighbors" ∨
        p = "_nearestneighbors" ∨ p = "nearest-neighbors" ∨ p = "nearest_neighbors" ∨
        p = "_nearest_neighbors" then
      parseIncludeParts rest { out with nearestNeighbors := true }
    else if p = "_featureProjection" ∨ p = "featureProjection" ∨ p = "featureprojection" ∨
        p = "_featureprojection" ∨ p = "feature-projection" ∨ p = "feature_projection" ∨
        p = "_feature_projection" then
      parseIncludeParts rest { out with featureProjection := true }
    else if p = "_vector" ∨ p = "vector" then
      parseIncludeParts rest { out with vector := true }
    else .error p

/-- parseIncludeParam: a nil include parameter yields the empty property
set; otherwise split on commas and fold the switch over the parts. -/
def parseIncludeParam : Option String → Except String UnderscoreProperties
  | none => .ok {}
  | some s => parseIncludeParts (splitComma s) {}

/-- The exact list of include spellings the switch of parseIncludeParam
recognizes. -/
def recognizedIncludeStrings : List String :=
  ["_classification", "classification",
   "_interpretation", "interpretation",
   "_nearestNeighbors", "nearestNeighbors", "nearestneighbors",
   "_nearestneighbors", "nearest-neighbors", "nearest_neighbors",
   "_nearest_neighbors",
   "_featureProjection", "featureProjection", "featureprojection",
   "_featureprojection", "feature-projection", "feature_projection",
   "_feature_projection",
   "_vector", "vector"]

/-- derefBool of handlers_kinds.go. -/
def derefBool : Option Bool → Bool
  | none => false
  | some b => b

/-- Minimal model of models.Thing for the list handlers: an identity token
and an opaque schema token transformed by extendSchemaWithAPILinks. -/
structure Thing where
  tid : Nat
  schemaTok : Nat
deriving DecidableEq, Repr

/-- Minimal model of models.Action for the list handlers. -/
structure Action where
  aid : Nat
  schemaTok : Nat
deriving DecidableEq, Repr

/-- models.ThingsListResponse: payload of a successful things list. -/
structure ThingsListResponse where
  things : List Thing
  totalResults : Nat
  deprecationsLen : Nat
deriving DecidableEq, Repr

/-- models.ActionsListResponse: payload of a successful actions list. -/
structure ActionsListResponse where
  actions : List Action
  totalResults : Nat
  deprecationsLen : Nat
deriving DecidableEq, Repr

/-- The responders getThings can produce. -/
inductive ThingsListResponder where
  | badRequest (msg : String)
  | forbidden
  | internalServerError
  | ok (payload : ThingsListResponse)
deriving DecidableEq, Repr

/-- The responders getActions can produce. -/
inductive ActionsListResponder where
  | badRequest (msg : String)
  | forbidden
  | internalServerError
  | ok (payload : ActionsListResponse)
deriving DecidableEq, Repr

/-- Oracles for the collaborators of the list handlers: the kinds manager
list operations and the per-element schema link extension performed by
extendSchemaWithAPILinks (which rewrites the schema of an element in
place and in particular keeps the list length unchanged). -/
structure RestEnv where
  managerGetThings : Option Int → UnderscoreProperties → Except ErrK (List Thing)
  managerGetActions : Option Int → UnderscoreProperties → Except ErrK (List Action)
  extendSchemaThing : Thing → Thing
  extendSchemaAction : Action → Action

/-- getThings: parse the include parameter (BadRequest on failure), honour
the deprecated meta flag, call the manager (Forbidden to 403, anything else
to 500), extend each schema with API links, and answer with the list and
TotalResults set to the length of that list. -/
def getThings (env : RestEnv) (includeParam : Option String) (meta : Option Bool)
    (limit : Option Int) : ThingsListResponder :=
  match parseIncludeParam includeParam with
  | .error e => .badRequest e
  | .ok under0 =>
    let meta := derefBool meta
    let under := if meta then
        { under0 with classification := true, refMeta := true, vector := true }
      else under0
    let deps : Nat := if meta then 1 else 0
    match env.managerGetThings limit under with
    | .error .forbidden => .forbidden
    | .error _ => .internalServerError
    | .ok list =>
      let list := list.map env.extendSchemaThing
      .ok { things := list, totalResults := list.length, deprecationsLen := deps }

/-- getActions, structured exactly like getThings. -/
def getActions (env : RestEnv) (includeParam : Option String) (meta : Option Bool)
    (limit : Option Int) : ActionsListResponder :=
  match parseIncludeParam includeParam with
  | .error e => .badRequest e
  | .ok under0 =>
    let meta := derefBool meta
    let under := if meta then
        { under0 with classification := true, refMeta := true, vector := true }
      else under0
    let deps : Nat := if meta then 1 else 0
    match env.managerGetActions limit under with
    | .error .forbidden => .forbidden
    | .error _ => .internalServerError
    | .ok list =>
      let list := list.map env.extendSchemaAction
      .ok { actions := list, totalResults := list.length, deprecationsLen := deps }

/-! Concrete inputs used by witnesses and counterexamples. -/

/-- An environment in which every collaborator call succeeds; docIDs are
assigned as uuid + 100. -/
def envAllOk : ShardEnv :=
  { parseOk := fun _ => true,
    marshalOk := fun _ => true,
    putOk := fun _ => true,
    allocDocID := fun o => o.ID + 100,
    addOk := fun _ _ => true,
    mergeOk := fun _ => true,
    now := 7 }

/-- An environment in which putObjectInTx fails exactly on uuid 5. -/
def envPutFails5 : ShardEnv :=
  { envAllOk with putOk := fun o => o.ID != 5 }

/-- The empty initial shard state. -/
def st0 : ShardState :=
  { store := [], txCount := 0, putAttempts := 0, mergeAttempts := 0,
    addCalls := [], vecIndex := [], mergedDocs := [] }

/-- A one-element batch input. -/
def obj1 : Object := ⟨1, [3]⟩

/-- The object with uuid 5 on which envPutFails5 fails. -/
def obj5 : Object := ⟨5, [9]⟩

/-- A batch input of 31 objects, forcing two chunks. -/
def objs31 : List Object := (List.range 31).map (fun n => ⟨n, [0]⟩)

/-- A REST collaborator environment whose manager returns two things and
two actions and whose schema extension is the identity. -/
def restEnvW : RestEnv :=
  { managerGetThings := fun _ _ => .ok [⟨1, 0⟩, ⟨2, 0⟩],
    managerGetActions := fun _ _ => .ok [⟨3, 0⟩, ⟨4, 0⟩],
    extendSchemaThing := fun t => t,
    extendSchemaAction := fun a => a }

/-! Generic lemmas about the modelled Go maps and the chunk decomposition. -/

theorem mapLookup_append_left {β : Type} {k : Nat} {v : β} {l1 l2 : List (Nat × β)}
    (h : mapLookup k l1 = some v) : mapLookup k (l1 ++ l2) = some v := by
  induction l1 with
  | nil => simp [mapLookup] at h
  | cons p rest ih =>
    obtain ⟨k2, v2⟩ := p
    by_cases hk : k = k2
    · rw [List.cons_append]
      simp only [mapLookup, if_pos hk] at h ⊢
      exact h
    · rw [List.cons_append]
      simp only [mapLookup, if_neg hk] at h ⊢
      exact ih h

theorem mapLookup_append_right {β : Type} {k : Nat} {l1 l2 : List (Nat × β)}
    (h : mapLookup k l1 = none) : mapLookup k (l1 ++ l2) = mapLookup k l2 := by
  induction l1 with
  | nil => simp
  | cons p rest ih =>
    obtain ⟨k2, v2⟩ := p
    by_cases hk : k = k2
    · simp only [mapLookup, if_pos hk] at h
      exact absurd h (by simp)
    · rw [List.cons_append]
      simp only [mapLookup, if_neg hk] at h ⊢
      exact ih h

theorem mapLookup_none_of_forall_ne {β : Type} {k : Nat} {l : List (Nat × β)}
    (h : ∀ p ∈ l, p.1 ≠ k) : mapLookup k l = none := by
  induction l with
  | nil => rfl
  | cons p rest ih =>
    obtain ⟨k2, v2⟩ := p
    have hk : k ≠ k2 := fun he => (h (k2, v2) (List.mem_cons_self _ _)) (by simp [he.symm])
    simp only [mapLookup, if_neg hk]
    exact ih (fun q hq => h q (List.mem_cons_of_mem _ hq))

theorem chunkErrBlock_keys {base n : Nat} {e : Err} :
    ∀ p ∈ chunkErrBlock base n e, base ≤ p.1 ∧ p.1 < base + n := by
  intro p hp
  simp only [chunkErrBlock, List.mem_map, List.mem_range] at hp
  obtain ⟨j, hj, rfl⟩ := hp
  exact ⟨Nat.le_add_right _ _, by omega⟩

theorem mapLookup_chunkErrBlock_of_ge {base j n : Nat} {e : Err} (h : n ≤ j) :
    mapLookup (base + j) (chunkErrBlock base n e) = none := by
  refine mapLookup_none_of_forall_ne (fun p hp => ?_)
  have := chunkErrBlock_keys p hp
  omega

theorem mapLookup_chunkErrBlock_of_lt {base j n : Nat} {e : Err} (h : j < n) :
    mapLookup (base + j) (chunkErrBlock base n e) = some (Err.txWrap e) := by
  induction n with
  | zero => omega
  | succ n ih =>
    have hsplit : chunkErrBlock base (n + 1) e
        = chunkErrBlock base n e ++ [(base + n, Err.txWrap e)] := by
      simp [chunkErrBlock, List.range_succ]
    rw [hsplit]
    by_cases hj : j < n
    · exact mapLookup_append_left (ih hj)
    · have hj' : j = n := by omega
      subst hj'
      rw [mapLookup_append_right (mapLookup_chunkErrBlock_of_ge (Nat.le_refl _))]
      simp [mapLookup]

theorem chunkListF_length {α : Type} :
    ∀ (fuel base : Nat) (l : List α), l.length ≤ fuel →
      (chunkListF fuel base l).length = (l.length + 29) / 30 := by
  intro fuel
  induction fuel with
  | zero =>
    intro base l hl
    have : l = [] := List.length_eq_zero.mp (by omega)
    subst this
    simp [chunkListF]
  | succ fuel ih =>
    intro base l hl
    cases l with
    | nil => simp [chunkListF]
    | cons x rest =>
      simp only [chunkListF, List.length_cons]
      rw [ih (base + 30) (rest.drop 29) (by simp [List.length_drop] at hl ⊢; omega)]
      simp only [List.length_drop]
      omega

theorem chunkListF_flatten {α : Type} :
    ∀ (fuel base : Nat) (l : List α), l.length ≤ fuel →
      ((chunkListF fuel base l).map Prod.snd).flatten = l := by
  intro fuel
  induction fuel with
  | zero =>
    intro base l hl
    have : l = [] := List.length_eq_zero.mp (by omega)
    subst this
    simp [chunkListF]
  | succ fuel ih =>
    intro base l hl
    cases l with
    | nil => simp [chunkListF]
    | cons x rest =>
      simp only [chunkListF, List.map_cons, List.flatten_cons]
      rw [ih (base + 30) (rest.drop 29) (by simp at hl ⊢; omega)]
      simp [List.take_append_drop]

theorem chunkListF_mem_shape {α : Type} :
    ∀ (fuel base : Nat) (l : List α), ∀ p ∈ chunkListF fuel base l,
      p.2 ≠ [] ∧ p.2.length ≤ 30 ∧ base ≤ p.1 := by
  intro fuel
  induction fuel with
  | zero => intro base l p hp; simp [chunkListF] at hp
  | succ fuel ih =>
    intro base l p hp
    cases l with
    | nil => simp [chunkListF] at hp
    | cons x rest =>
      simp only [chunkListF] at hp
      rcases List.mem_cons.mp hp with heq | htail
      · subst heq
        refine ⟨by simp, ?_, Nat.le_refl _⟩
        simp only [List.length_cons, List.length_take]
        omega
      · have := ih (base + 30) (rest.drop 29) p htail
        exact ⟨this.1, this.2.1, by omega⟩

theorem chunkListF_get? {α : Type} :
    ∀ (fuel base : Nat) (l : List α), l.length ≤ fuel →
      ∀ k, k < (chunkListF fuel base l).length →
        (chunkListF fuel base l).get? k = some (base + 30 * k, (l.drop (30 * k)).take 30) := by
  intro fuel
  induction fuel with
  | zero =>
    intro base l hl k hk
    have : l = [] := List.length_eq_zero.mp (by omega)
    subst this
    simp [chunkListF] at hk
  | succ fuel ih =>
    intro base l hl k hk
    cases l with
    | nil => simp [chunkListF] at hk
    | cons x rest =>
      cases k with
      | zero =>
        simp only [chunkListF, List.get?]
        rw [show (30 : Nat) * 0 = 0 by omega, Nat.add_zero, List.drop_zero,
          show (30 : Nat) = 29 + 1 from rfl, List.take_succ_cons]
      | succ k =>
        simp only [chunkListF, List.length_cons, List.get?] at hk ⊢
        rw [ih (base + 30) (rest.drop 29) (by simp at hl ⊢; omega) k (by omega)]
        have h1 : (30 : Nat) * (k + 1) = (29 + 30 * k) + 1 := by omega
        rw [h1, List.drop_succ_cons, List.drop_drop]
        have h2 : base + 30 + 30 * k = base + (29 + 30 * k + 1) := by omega
        rw [h2]

/-! Lemmas about phase 1 of putObjectBatch. -/

theorem applyPutChunk_store (env : ShardEnv) (base : Nat) (batch : List Object)
    (acc : BatchAcc) :
    (applyPutChunk env base batch acc).st.store
      = acc.st.store ++ chunkCommitWrites env batch := by
  simp [applyPutChunk]

theorem applyPutChunk_txCount (env : ShardEnv) (base : Nat) (batch : List Object)
    (acc : BatchAcc) :
    (applyPutChunk env base batch acc).st.txCount = acc.st.txCount + 1 := by
  simp [applyPutChunk]

theorem applyPutChunk_errs_ok {env : ShardEnv} {batch : List Object}
    {w : List (Nat × Object)} (base : Nat) (acc : BatchAcc)
    (h : (putChunkTx env batch).res = .ok w) :
    (applyPutChunk env base batch acc).errs = acc.errs := by
  simp [applyPutChunk, h]

theorem applyPutChunk_errs_error {env : ShardEnv} {batch : List Object} {e : Err}
    (base : Nat) (acc : BatchAcc)
    (h : (putChunkTx env batch).res = .error e) :
    (applyPutChunk env base batch acc).errs
      = acc.errs ++ chunkErrBlock base batch.length e := by
  simp [applyPutChunk, h]

theorem phase1fuel_store (env : ShardEnv) :
    ∀ (fuel base : Nat) (l : List Object) (acc : BatchAcc),
      (phase1fuel env fuel base l acc).st.store
        = acc.st.store
            ++ ((chunkListF fuel base l).map (fun p => chunkCommitWrites env p.2)).flatten := by
  intro fuel
  induction fuel with
  | zero => intro base l acc; simp [phase1fuel, chunkListF]
  | succ fuel ih =>
    intro base l acc
    cases l with
    | nil => simp [phase1fuel, chunkListF]
    | cons o rest =>
      simp only [phase1fuel, chunkListF, List.map_cons, List.flatten_cons]
      rw [ih, applyPutChunk_store, List.append_assoc]

theorem phase1fuel_txCount (env : ShardEnv) :
    ∀ (fuel base : Nat) (l : List Object) (acc : BatchAcc),
      (phase1fuel env fuel base l acc).st.txCount
        = acc.st.txCount + (chunkListF fuel base l).length := by
  intro fuel
  induction fuel with
  | zero => intro base l acc; simp [phase1fuel, chunkListF]
  | succ fuel ih =>
    intro base l acc
    cases l with
    | nil => simp [phase1fuel, chunkListF]
    | cons o rest =>
      simp only [phase1fuel, chunkListF, List.length_cons]
      rw [ih, applyPutChunk_txCount]
      omega

theorem phase1fuel_pres_some (env : ShardEnv) :
    ∀ (fuel base : Nat) (l : List Object) (acc : BatchAcc) (k : Nat) (v : Err),
      mapLookup k acc.errs = some v →
      mapLookup k (phase1fuel env fuel base l acc).errs = some v := by
  intro fuel
  induction fuel with
  | zero => intro base l acc k v h; simpa [phase1fuel] using h
  | succ fuel ih =>
    intro base l acc k v h
    cases l with
    | nil => simpa [phase1fuel] using h
    | cons o rest =>
      simp only [phase1fuel]
      refine ih _ _ _ _ _ ?_
      cases hres : (putChunkTx env (o :: rest.take 29)).res with
      | ok w => rw [applyPutChunk_errs_ok _ _ hres]; exact h
      | error e => rw [applyPutChunk_errs_error _ _ hres]; exact mapLookup_append_left h

theorem phase1fuel_lookup_lt (env : ShardEnv) :
    ∀ (fuel base : Nat) (l : List Object) (acc : BatchAcc) (k : Nat), k < base →
      mapLookup k (phase1fuel env fuel base l acc).errs = mapLookup k acc.errs := by
  intro fuel
  induction fuel with
  | zero => intro base l acc k hk; simp [phase1fuel]
  | succ fuel ih =>
    intro base l acc k hk
    cases l with
    | nil => simp [phase1fuel]
    | cons o rest =>
      simp only [phase1fuel]
      rw [ih _ _ _ _ (by omega : k < base + 30)]
      cases hres : (putChunkTx env (o :: rest.take 29)).res with
      | ok w => rw [applyPutChunk_errs_ok _ _ hres]
      | error e =>
        rw [applyPutChunk_errs_error _ _ hres]
        cases hacc : mapLookup k acc.errs with
        | some v => exact mapLookup_append_left hacc
        | none =>
          rw [mapLookup_append_right hacc]
          exact mapLookup_none_of_forall_ne
            (fun p hp => by have := chunkErrBlock_keys p hp; omega)

theorem phase1fuel_chunk_err (env : ShardEnv) :
    ∀ (fuel base : Nat) (l : List Object) (acc : BatchAcc),
      (∀ p ∈ acc.errs, p.1 < base) →
      ∀ b batch e, (b, batch) ∈ chunkListF fuel base l →
        (putChunkTx env batch).res = .error e →
        ∀ j, j < batch.length →
          mapLookup (b + j) (phase1fuel env fuel base l acc).errs
            = some (Err.txWrap e) := by
  intro fuel
  induction fuel with
  | zero => intro base l acc hkeys b batch e hmem; simp [chunkListF] at hmem
  | succ fuel ih =>
    intro base l acc hkeys b batch e hmem herr j hj
    cases l with
    | nil => simp [chunkListF] at hmem
    | cons o rest =>
      simp only [chunkListF] at hmem
      simp only [phase1fuel]
      rcases List.mem_cons.mp hmem with heq | htail
      · have hb : b = base := congrArg Prod.fst heq
        have hbatch : batch = o :: rest.take 29 := congrArg Prod.snd heq
        subst hb; subst hbatch
        refine phase1fuel_pres_some env _ _ _ _ _ _ ?_
        rw [applyPutChunk_errs_error _ _ herr]
        rw [mapLookup_append_right
          (mapLookup_none_of_forall_ne (fun p hp => by have := hkeys p hp; omega))]
        exact mapLookup_chunkErrBlock_of_lt hj
      · refine ih _ _ _ ?_ b batch e htail herr j hj
        intro p hp
        cases hres : (putChunkTx env (o :: rest.take 29)).res with
        | ok w =>
          rw [applyPutChunk_errs_ok _ _ hres] at hp
          have := hkeys p hp
          omega
        | error e2 =>
          rw [applyPutChunk_errs_error _ _ hres] at hp
          rcases List.mem_append.mp hp with hl | hr
          · have := hkeys p hl; omega
          · have := chunkErrBlock_keys p hr
            have hlen : (o :: rest.take 29).length ≤ 30 := by
              simp only [List.length_cons, List.length_take]
              omega
            omega

theorem phase1fuel_chunk_ok (env : ShardEnv) :
    ∀ (fuel base : Nat) (l : List Object) (acc : BatchAcc),
      (∀ p ∈ acc.errs, p.1 < base) →
      ∀ i, (putChunkTx env ((l.drop (30 * (i / 30))).take 30)).res.isOk = true →
        mapLookup (base + i) (phase1fuel env fuel base l acc).errs = none := by
  intro fuel
  induction fuel with
  | zero =>
    intro base l acc hkeys i hok
    simp only [phase1fuel]
    exact mapLookup_none_of_forall_ne (fun p hp => by have := hkeys p hp; omega)
  | succ fuel ih =>
    intro base l acc hkeys i hok
    cases l with
    | nil =>
      simp only [phase1fuel]
      exact mapLookup_none_of_forall_ne (fun p hp => by have := hkeys p hp; omega)
    | cons o rest =>
      simp only [phase1fuel]
      by_cases hi : i < 30
      · have hdiv : i / 30 = 0 := by omega
        rw [hdiv, Nat.mul_zero, List.drop_zero,
          show (30 : Nat) = 29 + 1 from rfl, List.take_succ_cons] at hok
        obtain ⟨w, hw⟩ : ∃ w, (putChunkTx env (o :: rest.take 29)).res = .ok w := by
          cases hres : (putChunkTx env (o :: rest.take 29)).res with
          | ok w => exact ⟨w, rfl⟩
          | error e => rw [hres] at hok; simp [Except.isOk, Except.toBool] at hok
        rw [phase1fuel_lookup_lt env _ _ _ _ _ (by omega : base + i < base + 30)]
        rw [applyPutChunk_errs_ok _ _ hw]
        exact mapLookup_none_of_forall_ne (fun p hp => by have := hkeys p hp; omega)
      · obtain ⟨i2, rfl⟩ : ∃ i2, i = 30 + i2 := ⟨i - 30, by omega⟩
        have hchunk : ((o :: rest).drop (30 * ((30 + i2) / 30))).take 30
            = (((rest.drop 29)).drop (30 * (i2 / 30))).take 30 := by
          have h30 : 30 * ((30 + i2) / 30) = (29 + 30 * (i2 / 30)) + 1 := by omega
          rw [h30, List.drop_succ_cons, List.drop_drop]
        rw [hchunk] at hok
        have hkey : base + (30 + i2) = (base + 30) + i2 := by omega
        rw [hkey]
        refine ih (base + 30) (rest.drop 29) _ ?_ i2 hok
        intro p hp
        cases hres : (putChunkTx env (o :: rest.take 29)).res with
        | ok w =>
          rw [applyPutChunk_errs_ok _ _ hres] at hp
          have := hkeys p hp
          omega
        | error e2 =>
          rw [applyPutChunk_errs_error _ _ hres] at hp
          rcases List.mem_append.mp hp with hl | hr
          · have := hkeys p hl; omega
          · have := chunkErrBlock_keys p hr
            have hlen : (o :: rest.take 29).length ≤ 30 := by
              simp only [List.length_cons, List.length_take]
              omega
            omega

/-! Lemmas about phase 2 of putObjectBatch. -/

theorem phase2Step_docIDs (env : ShardEnv) (i : Nat) (o : Object) (acc : BatchAcc) :
    (phase2Step env i o acc).docIDs = acc.docIDs := by
  unfold phase2Step
  cases mapLookup i acc.errs with
  | some v => rfl
  | none =>
    by_cases ha : env.addOk ((mapLookup o.ID acc.docIDs).getD 0) o.vector <;>
      simp [ha]

theorem phase2Step_frame (env : ShardEnv) (i : Nat) (o : Object) (acc : BatchAcc) :
    (phase2Step env i o acc).st.store = acc.st.store ∧
    (phase2Step env i o acc).st.txCount = acc.st.txCount ∧
    (phase2Step env i o acc).st.putAttempts = acc.st.putAttempts ∧
    (phase2Step env i o acc).st.mergeAttempts = acc.st.mergeAttempts ∧
    (phase2Step env i o acc).st.mergedDocs = acc.st.mergedDocs := by
  unfold phase2Step
  cases mapLookup i acc.errs with
  | some v => exact ⟨rfl, rfl, rfl, rfl, rfl⟩
  | none =>
    by_cases ha : env.addOk ((mapLookup o.ID acc.docIDs).getD 0) o.vector <;>
      simp [ha]

theorem phase2Step_errs_ne {env : ShardEnv} {i : Nat} {o : Object} {acc : BatchAcc}
    {k : Nat} (hk : k ≠ i) :
    mapLookup k (phase2Step env i o acc).errs = mapLookup k acc.errs := by
  unfold phase2Step
  cases mapLookup i acc.errs with
  | some v => rfl
  | none =>
    by_cases ha : env.addOk ((mapLookup o.ID acc.docIDs).getD 0) o.vector
    · simp [ha]
    · simp only [ha, if_neg (by simp : ¬False)]
      cases hacc : mapLookup k acc.errs with
      | some v =>
        simp only [Bool.false_eq_true, if_false]
        exact mapLookup_append_left hacc
      | none =>
        simp only [Bool.false_eq_true, if_false]
        rw [mapLookup_append_right hacc]
        simp [mapLookup, hk]

theorem phase2go_frame (env : ShardEnv) :
    ∀ (l : List Object) (i0 : Nat) (acc : BatchAcc),
      (phase2go env i0 l acc).st.store = acc.st.store ∧
      (phase2go env i0 l acc).st.txCount = acc.st.txCount ∧
      (phase2go env i0 l acc).st.putAttempts = acc.st.putAttempts ∧
      (phase2go env i0 l acc).st.mergeAttempts = acc.st.mergeAttempts ∧
      (phase2go env i0 l acc).st.mergedDocs = acc.st.mergedDocs ∧
      (phase2go env i0 l acc).docIDs = acc.docIDs := by
  intro l
  induction l with
  | nil => intro i0 acc; simp [phase2go]
  | cons o rest ih =>
    intro i0 acc
    simp only [phase2go]
    have h1 := phase2Step_frame env i0 o acc
    have h2 := phase2Step_docIDs env i0 o acc
    have h3 := ih (i0 + 1) (phase2Step env i0 o acc)
    exact ⟨h3.1.trans h1.1, h3.2.1.trans h1.2.1, h3.2.2.1.trans h1.2.2.1,
      h3.2.2.2.1.trans h1.2.2.2.1, h3.2.2.2.2.1.trans h1.2.2.2.2,
      h3.2.2.2.2.2.trans h2⟩

theorem phase2go_pres_some (env : ShardEnv) :
    ∀ (l : List Object) (i0 : Nat) (acc : BatchAcc) (k : Nat) (v : Err),
      mapLookup k acc.errs = some v →
      mapLookup k (phase2go env i0 l acc).errs = some v := by
  intro l
  induction l with
  | nil => intro i0 acc k v h; simpa [phase2go] using h
  | cons o rest ih =>
    intro i0 acc k v h
    simp only [phase2go]
    refine ih _ _ _ _ ?_
    unfold phase2Step
    cases hl : mapLookup i0 acc.errs with
    | some v2 => exact h
    | none =>
      by_cases ha : env.addOk ((mapLookup o.ID acc.docIDs).getD 0) o.vector
      · simpa [ha] using h
      · simp only [ha, Bool.false_eq_true, if_false]
        exact mapLookup_append_left h

theorem phase2go_lookup_lt (env : ShardEnv) :
    ∀ (l : List Object) (i0 : Nat) (acc : BatchAcc) (k : Nat), k < i0 →
      mapLookup k (phase2go env i0 l acc).errs = mapLookup k acc.errs := by
  intro l
  induction l with
  | nil => intro i0 acc k hk; simp [phase2go]
  | cons o rest ih =>
    intro i0 acc k hk
    simp only [phase2go]
    rw [ih _ _ _ (by omega : k < i0 + 1)]
    exact phase2Step_errs_ne (by omega)

theorem phase2go_addCalls_mono (env : ShardEnv) :
    ∀ (l : List Object) (i0 : Nat) (acc : BatchAcc) (x : Nat × List Int),
      x ∈ acc.st.addCalls → x ∈ (phase2go env i0 l acc).st.addCalls := by
  intro l
  induction l with
  | nil => intro i0 acc x h; simpa [phase2go] using h
  | cons o rest ih =>
    intro i0 acc x h
    simp only [phase2go]
    refine ih _ _ _ ?_
    unfold phase2Step
    cases hl : mapLookup i0 acc.errs with
    | some v2 => exact h
    | none =>
      by_cases ha : env.addOk ((mapLookup o.ID acc.docIDs).getD 0) o.vector
      · simp only [ha, if_true]
        exact List.mem_append_left _ h
      · simp only [ha, Bool.false_eq_true, if_false]
        exact List.mem_append_left _ h

theorem phase2go_at (env : ShardEnv) :
    ∀ (l : List Object) (i0 : Nat) (acc : BatchAcc) (j : Nat) (o : Object),
      l.get? j = some o →
      mapLookup (i0 + j) acc.errs = none →
      (((mapLookup o.ID acc.docIDs).getD 0, o.vector)
          ∈ (phase2go env i0 l acc).st.addCalls) ∧
      mapLookup (i0 + j) (phase2go env i0 l acc).errs
        = (if env.addOk ((mapLookup o.ID acc.docIDs).getD 0) o.vector then none
           else some (Err.vectorAddErr ((mapLookup o.ID acc.docIDs).getD 0))) := by
  intro l
  induction l with
  | nil => intro i0 acc j o hj; simp at hj
  | cons o0 rest ih =>
    intro i0 acc j o hj hnone
    cases j with
    | zero =>
      have ho : o = o0 := by simpa using hj.symm
      subst ho
      rw [Nat.add_zero] at hnone
      simp only [phase2go]
      have hstep : phase2Step env i0 o acc
          = (let d := (mapLookup o.ID acc.docIDs).getD 0
             let st2 := { acc.st with addCalls := acc.st.addCalls ++ [(d, o.vector)] }
             if env.addOk d o.vector then
               { acc with st :=
                   { st2 with vecIndex :=
                       (d, o.vector) :: st2.vecIndex.filter (fun p => p.1 != d) } }
             else
               { acc with st := st2, errs := acc.errs ++ [(i0, Err.vectorAddErr d)] }) := by
        unfold phase2Step
        rw [hnone]
      by_cases ha : env.addOk ((mapLookup o.ID acc.docIDs).getD 0) o.vector
      · rw [hstep]
        simp only [ha, if_true, Nat.add_zero]
        constructor
        · exact phase2go_addCalls_mono env _ _ _ _
            (by simp)
        · rw [phase2go_lookup_lt env _ _ _ _ (by omega : i0 < i0 + 1)]
          exact hnone
      · rw [hstep]
        simp only [ha, Bool.false_eq_true, if_false, Nat.add_zero]
        constructor
        · exact phase2go_addCalls_mono env _ _ _ _
            (by simp)
        · rw [phase2go_lookup_lt env _ _ _ _ (by omega : i0 < i0 + 1)]
          rw [mapLookup_append_right hnone]
          simp [mapLookup]
    | succ j2 =>
      have hj2 : rest.get? j2 = some o := by simpa using hj
      simp only [phase2go]
      have hne : mapLookup ((i0 + 1) + j2) (phase2Step env i0 o0 acc).errs = none := by
        rw [phase2Step_errs_ne (by omega : (i0 + 1) + j2 ≠ i0)]
        have : (i0 + 1) + j2 = i0 + (j2 + 1) := by omega
        rw [this]
        exact hnone
      have := ih (i0 + 1) (phase2Step env i0 o0 acc) j2 o hj2 hne
      rw [phase2Step_docIDs] at this
      have hk : (i0 + 1) + j2 = i0 + (j2 + 1) := by omega
      rw [hk] at this
      exact this

/-! Lemmas about the chunk loop of addReferencesBatch. -/

theorem applyRefChunk_frame (env : ShardEnv) (base : Nat) (batch : List BatchReference)
    (acc : RefAcc) :
    (applyRefChunk env base batch acc).st.vecIndex = acc.st.vecIndex ∧
    (applyRefChunk env base batch acc).st.addCalls = acc.st.addCalls ∧
    (applyRefChunk env base batch acc).st.store = acc.st.store ∧
    (applyRefChunk env base batch acc).st.putAttempts = acc.st.putAttempts := by
  simp [applyRefChunk]

theorem applyRefChunk_txCount (env : ShardEnv) (base : Nat) (batch : List BatchReference)
    (acc : RefAcc) :
    (applyRefChunk env base batch acc).st.txCount = acc.st.txCount + 1 := by
  simp [applyRefChunk]

theorem applyRefChunk_mergedDocs (env : ShardEnv) (base : Nat)
    (batch : List BatchReference) (acc : RefAcc) :
    (applyRefChunk env base batch acc).st.mergedDocs
      = acc.st.mergedDocs ++ refChunkCommitDocs env batch := by
  simp [applyRefChunk]

theorem refPhasefuel_frame (env : ShardEnv) :
    ∀ (fuel base : Nat) (l : List BatchReference) (acc : RefAcc),
      (refPhasefuel env fuel base l acc).st.vecIndex = acc.st.vecIndex ∧
      (refPhasefuel env fuel base l acc).st.addCalls = acc.st.addCalls ∧
      (refPhasefuel env fuel base l acc).st.store = acc.st.store ∧
      (refPhasefuel env fuel base l acc).st.putAttempts = acc.st.putAttempts := by
  intro fuel
  induction fuel with
  | zero => intro base l acc; simp [refPhasefuel]
  | succ fuel ih =>
    intro base l acc
    cases l with
    | nil => simp [refPhasefuel]
    | cons r rest =>
      simp only [refPhasefuel]
      have h1 := applyRefChunk_frame env base (r :: rest.take 29) acc
      have h2 := ih (base + 30) (rest.drop 29) (applyRefChunk env base (r :: rest.take 29) acc)
      exact ⟨h2.1.trans h1.1, h2.2.1.trans h1.2.1, h2.2.2.1.trans h1.2.2.1,
        h2.2.2.2.trans h1.2.2.2⟩

theorem refPhasefuel_txCount (env : ShardEnv) :
    ∀ (fuel base : Nat) (l : List BatchReference) (acc : RefAcc),
      (refPhasefuel env fuel base l acc).st.txCount
        = acc.st.txCount + (chunkListF fuel base l).length := by
  intro fuel
  induction fuel with
  | zero => intro base l acc; simp [refPhasefuel, chunkListF]
  | succ fuel ih =>
    intro base l acc
    cases l with
    | nil => simp [refPhasefuel, chunkListF]
    | cons r rest =>
      simp only [refPhasefuel, chunkListF, List.length_cons]
      rw [ih, applyRefChunk_txCount]
      omega

theorem refPhasefuel_mergedDocs (env : ShardEnv) :
    ∀ (fuel base : Nat) (l : List BatchReference) (acc : RefAcc),
      (refPhasefuel env fuel base l acc).st.mergedDocs
        = acc.st.mergedDocs
            ++ ((chunkListF fuel base l).map (fun p => refChunkCommitDocs env p.2)).flatten := by
  intro fuel
  induction fuel with
  | zero => intro base l acc; simp [refPhasefuel, chunkListF]
  | succ fuel ih =>
    intro base l acc
    cases l with
    | nil => simp [refPhasefuel, chunkListF]
    | cons r rest =>
      simp only [refPhasefuel, chunkListF, List.map_cons, List.flatten_cons]
      rw [ih, applyRefChunk_mergedDocs, List.append_assoc]

/-! Lemmas about parseIncludeParam. -/

theorem parseIncludeParts_ok_iff :
    ∀ (parts : List String) (out : UnderscoreProperties),
      (∃ o, parseIncludeParts parts out = .ok o)
        ↔ ∀ p ∈ parts, p ∈ recognizedIncludeStrings := by
  intro parts
  induction parts with
  | nil => intro out; simp [parseIncludeParts]
  | cons p rest ih =>
    intro out
    simp only [List.mem_cons, forall_eq_or_imp]
    unfold parseIncludeParts
    by_cases h1 : p = "_classification" ∨ p = "classification"
    · rw [if_pos h1, ih]
      have habs : p ∈ recognizedIncludeStrings := by
        rcases h1 with h | h <;> (subst h; decide)
      exact ⟨fun hall => ⟨habs, hall⟩, fun h => h.2⟩
    · rw [if_neg h1]
      by_cases h2 : p = "_interpretation" ∨ p = "interpretation"
      · rw [if_pos h2, ih]
        have habs : p ∈ recognizedIncludeStrings := by
          rcases h2 with h | h <;> (subst h; decide)
        exact ⟨fun hall => ⟨habs, hall⟩, fun h => h.2⟩
      · rw [if_neg h2]
        by_cases h3 : p = "_nearestNeighbors" ∨ p = "nearestNeighbors" ∨
            p = "nearestneighbors" ∨ p = "_nearestneighbors" ∨ p = "nearest-neighbors" ∨
            p = "nearest_neighbors" ∨ p = "_nearest_neighbors"
        · rw [if_pos h3, ih]
          have habs : p ∈ recognizedIncludeStrings := by
            rcases h3 with h | h | h | h | h | h | h <;> (subst h; decide)
          exact ⟨fun hall => ⟨habs, hall⟩, fun h => h.2⟩
        · rw [if_neg h3]
          by_cases h4 : p = "_featureProjection" ∨ p = "featureProjection" ∨
              p = "featureprojection" ∨ p = "_featureprojection" ∨
              p = "feature-projection" ∨ p = "feature_projection" ∨
              p = "_feature_projection"
          · rw [if_pos h4, ih]
            have habs : p ∈ recognizedIncludeStrings := by
              rcases h4 with h | h | h | h | h | h | h <;> (subst h; decide)
            exact ⟨fun hall => ⟨habs, hall⟩, fun h => h.2⟩
          · rw [if_neg h4]
            by_cases h5 : p = "_vector" ∨ p = "vector"
            · rw [if_pos h5, ih]
              have habs : p ∈ recognizedIncludeStrings := by
                rcases h5 with h | h <;> (subst h; decide)
              exact ⟨fun hall => ⟨habs, hall⟩, fun h => h.2⟩
            · rw [if_neg h5]
              have hnot : p ∉ recognizedIncludeStrings := by
                intro hmem
                simp only [recognizedIncludeStrings, List.mem_cons,
                  List.not_mem_nil, or_false] at hmem
                rcases hmem with h | h | h | h | h | h | h | h | h | h | h | h |
                  h | h | h | h | h | h | h | h <;> simp_all
              constructor
              · rintro ⟨o, ho⟩
                exact absurd ho (by simp)
              · rintro ⟨hmem, _⟩
                exact absurd hmem hnot

theorem parseIncludeParts_refMeta_inv :
    ∀ (parts : List String) (out o : UnderscoreProperties),
      out.refMeta = out.classification →
      parseIncludeParts parts out = .ok o →
      o.refMeta = o.classification := by
  intro parts
  induction parts with
  | nil =>
    intro out o hinv h
    simp only [parseIncludeParts, Except.ok.injEq] at h
    exact h ▸ hinv
  | cons p rest ih =>
    intro out o hinv h
    unfold parseIncludeParts at h
    by_cases h1 : p = "_classification" ∨ p = "classification"
    · rw [if_pos h1] at h
      exact ih _ _ (by simp) h
    · rw [if_neg h1] at h
      by_cases h2 : p = "_interpretation" ∨ p = "interpretation"
      · rw [if_pos h2] at h
        exact ih _ _ (by simpa using hinv) h
      · rw [if_neg h2] at h
        by_cases h3 : p = "_nearestNeighbors" ∨ p = "nearestNeighbors" ∨
            p = "nearestneighbors" ∨ p = "_nearestneighbors" ∨ p = "nearest-neighbors" ∨
            p = "nearest_neighbors" ∨ p = "_nearest_neighbors"
        · rw [if_pos h3] at h
          exact ih _ _ (by simpa using hinv) h
        · rw [if_neg h3] at h
          by_cases h4 : p = "_featureProjection" ∨ p = "featureProjection" ∨
              p = "featureprojection" ∨ p = "_featureprojection" ∨
              p = "feature-projection" ∨ p = "feature_projection" ∨
              p = "_feature_projection"
          · rw [if_pos h4] at h
            exact ih _ _ (by simpa using hinv) h
          · rw [if_neg h4] at h
            by_cases h5 : p = "_vector" ∨ p = "vector"
            · rw [if_pos h5] at h
              exact ih _ _ (by simpa using hinv) h
            · rw [if_neg h5] at h
              exact absurd h (by simp)

/-! Claim theorems. -/

/-- Claim C1 (confirmed): for every batch object put and every chunk of the
input, if the chunk transaction fails with an error, the whole transaction
is rolled back, so the chunk contributes no record to the object store (the
final store is the initial store plus exactly the committed writes of each
chunk, and the failing chunk commits none), and the result map records the
wrapped error at every original index of the chunk. -/
theorem putObjectBatch_chunk_atomicity :
    ∀ (env : ShardEnv) (ctx : Ctx) (st : ShardState) (objects : List Object)
      (b : Nat) (batch : List Object) (e : Err),
      (b, batch) ∈ chunkList 0 objects →
      (putChunkTx env batch).res = .error e →
      ((putObjectBatch env ctx objects st).1.store
          = st.store
            ++ ((chunkList 0 objects).map (fun p => chunkCommitWrites env p.2)).flatten) ∧
      chunkCommitWrites env batch = [] ∧
      (∀ j, j < batch.length →
        mapLookup (b + j) (putObjectBatch env ctx objects st).2
          = some (Err.txWrap e)) := by
  intro env ctx st objects b batch e hmem herr
  refine ⟨?_, ?_, ?_⟩
  · show (phase2go env 0 objects (phase1res env objects st)).st.store = _
    rw [(phase2go_frame env objects 0 (phase1res env objects st)).1]
    exact phase1fuel_store env objects.length 0 objects ⟨st, [], []⟩
  · unfold chunkCommitWrites
    rw [herr]
  · intro j hj
    show mapLookup (b + j) (phase2go env 0 objects (phase1res env objects st)).errs = _
    refine phase2go_pres_some env _ _ _ _ _ ?_
    exact phase1fuel_chunk_err env objects.length 0 objects ⟨st, [], []⟩
      (by simp) b batch e hmem herr j hj

/-- Witness for C1: a one-object batch whose putObjectInTx call fails
leaves the store empty and records the wrapped error at index 0. -/
theorem putObjectBatch_chunk_atomicity_witness :
    mapLookup 0 (putObjectBatch envPutFails5 ⟨false⟩ [obj5] st0).2
        = some (Err.txWrap (Err.putObjectErr 5)) ∧
    (putObjectBatch envPutFails5 ⟨false⟩ [obj5] st0).1.store = [] := by
  have h := putObjectBatch_chunk_atomicity envPutFails5 ⟨false⟩ st0 [obj5] 0 [obj5]
    (Err.putObjectErr 5) (by decide) rfl
  refine ⟨h.2.2 0 (by decide), ?_⟩
  rw [h.1]
  rfl

/-- Claim C2 (confirmed): after both phases of a batch object put, every
input index whose chunk transaction committed had vectorIndex.Add invoked
with its docID and vector, and the result map at that index is empty
exactly when that Add succeeded (otherwise it holds the wrapped Add error);
conversely an index of the input that is absent from the returned map lies
in a committed chunk, hence was both committed and, by the first part,
indexed successfully. -/
theorem putObjectBatch_vector_convergence :
    ∀ (env : ShardEnv) (ctx : Ctx) (st : ShardState) (objects : List Object),
      (∀ i o, objects.get? i = some o →
        (putChunkTx env ((objects.drop (30 * (i / 30))).take 30)).res.isOk = true →
        (((mapLookup o.ID (phase1res env objects st).docIDs).getD 0, o.vector)
            ∈ (putObjectBatch env ctx objects st).1.addCalls) ∧
        mapLookup i (putObjectBatch env ctx objects st).2
          = (if env.addOk ((mapLookup o.ID (phase1res env objects st).docIDs).getD 0)
                o.vector
             then none
             else some (Err.vectorAddErr
               ((mapLookup o.ID (phase1res env objects st).docIDs).getD 0)))) ∧
      (∀ i, i < objects.length →
        mapLookup i (putObjectBatch env ctx objects st).2 = none →
        (putChunkTx env ((objects.drop (30 * (i / 30))).take 30)).res.isOk = true) := by
  intro env ctx st objects
  constructor
  · intro i o hget hok
    have hn : mapLookup i (phase1res env objects st).errs = none := by
      have := phase1fuel_chunk_ok env objects.length 0 objects ⟨st, [], []⟩
        (by simp) i hok
      simpa [phase1res] using this
    have h2 := phase2go_at env objects 0 (phase1res env objects st) i o hget
      (by simpa using hn)
    simpa [putObjectBatch] using h2
  · intro i hi hnone
    cases hres : (putChunkTx env ((objects.drop (30 * (i / 30))).take 30)).res with
    | ok w => simp [hres, Except.isOk, Except.toBool]
    | error e =>
      exfalso
      have hklen : i / 30 < (chunkListF objects.length 0 objects).length := by
        rw [chunkListF_length objects.length 0 objects (Nat.le_refl _)]
        omega
      have hget := chunkListF_get? objects.length 0 objects (Nat.le_refl _)
        (i / 30) hklen
      have hmem : (30 * (i / 30), (objects.drop (30 * (i / 30))).take 30)
          ∈ chunkListF objects.length 0 objects := by
        have := List.get?_mem hget
        simpa using this
      have hjlen : i % 30 < ((objects.drop (30 * (i / 30))).take 30).length := by
        simp only [List.length_take, List.length_drop]
        omega
      have hsome := phase1fuel_chunk_err env objects.length 0 objects ⟨st, [], []⟩
        (by simp) (30 * (i / 30)) ((objects.drop (30 * (i / 30))).take 30) e
        hmem hres (i % 30) hjlen
      have hidx : 30 * (i / 30) + i % 30 = i := Nat.div_add_mod i 30
      rw [hidx] at hsome
      have hfin : mapLookup i (putObjectBatch env ctx objects st).2
          = some (Err.txWrap e) := by
        show mapLookup i (phase2go env 0 objects (phase1res env objects st)).errs = _
        exact phase2go_pres_some env _ _ _ _ _ hsome
      rw [hfin] at hnone
      exact Option.noConfusion hnone

/-- Witness for C2: a committed one-object batch gets its Add call with the
allocated docID 101 and keeps index 0 absent from the error map. -/
theorem putObjectBatch_vector_convergence_witness :
    ((101, [3]) ∈ (putObjectBatch envAllOk ⟨false⟩ [obj1] st0).1.addCalls) ∧
    mapLookup 0 (putObjectBatch envAllOk ⟨false⟩ [obj1] st0).2 = none := by
  have h := (putObjectBatch_vector_convergence envAllOk ⟨false⟩ st0 [obj1]).1 0 obj1
    rfl rfl
  have hd : (mapLookup obj1.ID (phase1res envAllOk [obj1] st0).docIDs).getD 0 = 101 := rfl
  rw [hd] at h
  have hone : obj1.vector = [3] := rfl
  rw [hone] at h
  refine ⟨h.1, ?_⟩
  rw [h.2]
  rfl

/-- Counterexample for C3: the claim asserts that any input of size at most
30 is handled in a single KV transaction, but the empty input (size 0, and
0 is at most 30) opens no transaction at all. -/
theorem putObjectBatch_empty_opens_no_tx :
    (putObjectBatch envAllOk ⟨false⟩ [] st0).1.txCount = 0 := rfl

/-- Claim C3 (amended): the coordinator partitions the input into the
contiguous chunks at indices 30k to 30k+29, each nonempty of size at most
30, whose concatenation is the input; putObjectBatch and addReferencesBatch
open exactly one KV transaction per chunk, hence an input of size N uses
ceil(N over 30) transactions, and any nonempty input of size at most 30 is
handled in a single transaction. -/
theorem putObjectBatch_chunking :
    ∀ (env : ShardEnv) (ctx : Ctx) (st : ShardState) (objects : List Object)
      (refs : List BatchReference),
      (putObjectBatch env ctx objects st).1.txCount
          = st.txCount + (chunkList 0 objects).length ∧
      (chunkList 0 objects).length = (objects.length + 29) / 30 ∧
      (addReferencesBatch env ctx refs st).1.txCount
          = st.txCount + (refs.length + 29) / 30 ∧
      ((chunkList 0 objects).map Prod.snd).flatten = objects ∧
      (∀ p ∈ chunkList 0 objects, p.2 ≠ [] ∧ p.2.length ≤ 30) ∧
      (∀ k, k < (chunkList 0 objects).length →
        (chunkList 0 objects).get? k
          = some (30 * k, (objects.drop (30 * k)).take 30)) ∧
      (1 ≤ objects.length → objects.length ≤ 30 →
        (putObjectBatch env ctx objects st).1.txCount = st.txCount + 1) := by
  intro env ctx st objects refs
  have htx : (putObjectBatch env ctx objects st).1.txCount
      = st.txCount + (chunkList 0 objects).length := by
    show (phase2go env 0 objects (phase1res env objects st)).st.txCount = _
    rw [(phase2go_frame env objects 0 (phase1res env objects st)).2.1]
    exact phase1fuel_txCount env objects.length 0 objects ⟨st, [], []⟩
  have hlen : (chunkList 0 objects).length = (objects.length + 29) / 30 :=
    chunkListF_length objects.length 0 objects (Nat.le_refl _)
  refine ⟨htx, hlen, ?_, ?_, ?_, ?_, ?_⟩
  · show (refPhasefuel env refs.length 0 refs ⟨st, []⟩).st.txCount = _
    rw [refPhasefuel_txCount env refs.length 0 refs ⟨st, []⟩]
    rw [chunkListF_length refs.length 0 refs (Nat.le_refl _)]
  · exact chunkListF_flatten objects.length 0 objects (Nat.le_refl _)
  · intro p hp
    have := chunkListF_mem_shape objects.length 0 objects p hp
    exact ⟨this.1, this.2.1⟩
  · intro k hk
    have := chunkListF_get? objects.length 0 objects (Nat.le_refl _) k hk
    simpa using this
  · intro h1 h30
    rw [htx, hlen]
    omega

/-- Witness for C3 (amended): 31 objects are split into two chunks, hence
two transactions. -/
theorem putObjectBatch_chunking_witness :
    (putObjectBatch envAllOk ⟨false⟩ objs31 st0).1.txCount = 2 := by
  have h := putObjectBatch_chunking envAllOk ⟨false⟩ st0 objs31 []
  rw [h.1, h.2.1]
  rfl

/-- Counterexample for C4: the claim asserts that a batch object put whose
context is cancelled begins no further KV transactions and dispatches no
further vector-index calls, but with an already-cancelled context the code
still opens the transaction of a one-object batch and still dispatches its
vectorIndex.Add call. -/
theorem putObjectBatch_cancelled_still_runs :
    (putObjectBatch envAllOk ⟨true⟩ [obj1] st0).1.txCount = 1 ∧
    (putObjectBatch envAllOk ⟨true⟩ [obj1] st0).1.addCalls = [(101, [3])] := by
  exact ⟨rfl, rfl⟩

/-- Claim C4 (amended): both public batch operations accept a cancellation
signal (the ctx argument) but never consult it: their results and effects
are identical for cancelled and non-cancelled contexts, so KV transactions
and vector-index calls proceed regardless of cancellation. -/
theorem batch_ops_ignore_cancellation :
    ∀ (env : ShardEnv) (st : ShardState) (objects : List Object)
      (refs : List BatchReference) (c c2 : Bool),
      putObjectBatch env ⟨c⟩ objects st = putObjectBatch env ⟨c2⟩ objects st ∧
      addReferencesBatch env ⟨c⟩ refs st = addReferencesBatch env ⟨c2⟩ refs st := by
  intro env st objects refs c c2
  exact ⟨rfl, rfl⟩

/-- Claim C5 (confirmed): addReferencesBatch never touches the vector
index: the vector-index contents and the log of Add invocations after the
batch equal their values before it, while each reference is applied as the
merge document built by mergeDocFromBatchReference inside its chunk
transaction (the committed merge documents of the chunks are appended to
the state). -/
theorem addReferencesBatch_vector_frame :
    ∀ (env : ShardEnv) (ctx : Ctx) (refs : List BatchReference) (st : ShardState),
      (addReferencesBatch env ctx refs st).1.vecIndex = st.vecIndex ∧
      (addReferencesBatch env ctx refs st).1.addCalls = st.addCalls ∧
      (addReferencesBatch env ctx refs st).1.mergedDocs
        = st.mergedDocs
            ++ ((chunkList 0 refs).map (fun p => refChunkCommitDocs env p.2)).flatten ∧
      (∀ r, mergeDocFromBatchReference env.now r
        = { kind := r.fromKind, cls := r.fromClass, ID := r.fromTargetID,
            updateTime := env.now, references := [r] }) := by
  intro env ctx refs st
  refine ⟨?_, ?_, ?_, fun r => rfl⟩
  · exact (refPhasefuel_frame env refs.length 0 refs ⟨st, []⟩).1
  · exact (refPhasefuel_frame env refs.length 0 refs ⟨st, []⟩).2.1
  · exact refPhasefuel_mergedDocs env refs.length 0 refs ⟨st, []⟩

/-- Claim C8 (confirmed): a batch object put on the empty input returns the
unchanged shard state (no transaction opened, no putObjectInTx call, no
docID published, no Add call) together with the empty error map. -/
theorem putObjectBatch_empty :
    ∀ (env : ShardEnv) (ctx : Ctx) (st : ShardState),
      putObjectBatch env ctx [] st = (st, []) := by
  intro env ctx st
  rfl

/-- Counterexample for C6: the error-kind to status mapping is not uniform
across the handlers: addThingReference answers 422 (not 404) to NotFound,
deleteThingReference answers 404 (not 422) to InvalidUserInput, and
addThing answers 500 (not 404) to NotFound. -/
theorem kindHandlers_status_nonuniform :
    addThingReferenceErrStatus ErrK.notFound = 422 ∧
    deleteThingReferenceErrStatus ErrK.invalidUserInput = 404 ∧
    addThingErrStatus ErrK.notFound = 500 := by
  decide

/-- Claim C6 (amended): every handler maps Forbidden to 403 and an
unmatched error to 500, but NotFound and InvalidUserInput vary by handler
group: object create, validate, update and patch handlers map
InvalidUserInput to 422 and let NotFound fall to 500; object get and delete
handlers map NotFound to 404 and let InvalidUserInput fall to 500; list
handlers map everything but Forbidden to 500; reference create and update
handlers map both NotFound and InvalidUserInput to 422; reference delete
handlers map both to 404. -/
theorem kindHandlers_error_status_mapping :
    ∀ e : ErrK,
      (addThingErrStatus e = specMutationStatus e ∧
       addActionErrStatus e = specMutationStatus e ∧
       validateThingErrStatus e = specMutationStatus e ∧
       validateActionErrStatus e = specMutationStatus e ∧
       updateThingErrStatus e = specMutationStatus e ∧
       updateActionErrStatus e = specMutationStatus e ∧
       patchThingErrStatus e = specMutationStatus e ∧
       patchActionErrStatus e = specMutationStatus e) ∧
      (getThingErrStatus e = specReadStatus e ∧
       getActionErrStatus e = specReadStatus e ∧
       deleteThingErrStatus e = specReadStatus e ∧
       deleteActionErrStatus e = specReadStatus e) ∧
      (getThingsErrStatus e = specListStatus e ∧
       getActionsErrStatus e = specListStatus e) ∧
      (addThingReferenceErrStatus e = specRefWriteStatus e ∧
       addActionReferenceErrStatus e = specRefWriteStatus e ∧
       updateThingReferencesErrStatus e = specRefWriteStatus e ∧
       updateActionReferencesErrStatus e = specRefWriteStatus e) ∧
      (deleteThingReferenceErrStatus e = specRefDeleteStatus e ∧
       deleteActionReferenceErrStatus e = specRefDeleteStatus e) ∧
      (specMutationStatus ErrK.forbidden = 403 ∧
       specMutationStatus ErrK.invalidUserInput = 422 ∧
       specMutationStatus ErrK.notFound = 500 ∧
       specMutationStatus ErrK.generic = 500 ∧
       specReadStatus ErrK.notFound = 404 ∧
       specReadStatus ErrK.invalidUserInput = 500 ∧
       specListStatus ErrK.notFound = 500 ∧
       specRefWriteStatus ErrK.notFound = 422 ∧
       specRefDeleteStatus ErrK.invalidUserInput = 404) := by
  decide

/-- Counterexample for C7: RefMeta belongs to the recognized enrichment
set of the claim, yet neither its camel-cased nor its underscored spelling
is accepted by parseIncludeParam, which fails on the offending part. -/
theorem parseIncludeParam_refMeta_rejected :
    parseIncludeParam (some "refMeta") = .error "refMeta" ∧
    parseIncludeParam (some "_refMeta") = .error "_refMeta" := by
  exact ⟨rfl, rfl⟩

/-- Claim C7 (amended): parsing an include string succeeds exactly when
every comma-separated part is one of the twenty literal spellings of the
switch (covering Classification, Interpretation, NearestNeighbors,
FeatureProjection and Vector in underscored, camel-cased, lower-cased and
dash or underscore separated variants; no spelling exists for RefMeta),
and a nil parameter succeeds with the empty property set; any part outside
the list makes parsing, and thus the operation, fail with an error naming
that part. -/
theorem parseIncludeParam_ok_iff :
    (∀ s : String,
      (∃ o, parseIncludeParam (some s) = .ok o)
        ↔ ∀ p ∈ splitComma s, p ∈ recognizedIncludeStrings) ∧
    parseIncludeParam none = .ok {} ∧
    (∀ s p, parseIncludeParam (some s) = .error p →
      p ∉ recognizedIncludeStrings ∧ p ∈ splitComma s) := by
  refine ⟨fun s => parseIncludeParts_ok_iff (splitComma s) {}, rfl, ?_⟩
  intro s p herr
  have hgen : ∀ (parts : List String) (out : UnderscoreProperties),
      parseIncludeParts parts out = .error p →
      p ∉ recognizedIncludeStrings ∧ p ∈ parts := by
    intro parts
    induction parts with
    | nil => intro out h; simp [parseIncludeParts] at h
    | cons q rest ih =>
      intro out h
      unfold parseIncludeParts at h
      by_cases h1 : q = "_classification" ∨ q = "classification"
      · rw [if_pos h1] at h
        have := ih _ h
        exact ⟨this.1, List.mem_cons_of_mem _ this.2⟩
      · rw [if_neg h1] at h
        by_cases h2 : q = "_interpretation" ∨ q = "interpretation"
        · rw [if_pos h2] at h
          have := ih _ h
          exact ⟨this.1, List.mem_cons_of_mem _ this.2⟩
        · rw [if_neg h2] at h
          by_cases h3 : q = "_nearestNeighbors" ∨ q = "nearestNeighbors" ∨
              q = "nearestneighbors" ∨ q = "_nearestneighbors" ∨
              q = "nearest-neighbors" ∨ q = "nearest_neighbors" ∨
              q = "_nearest_neighbors"
          · rw [if_pos h3] at h
            have := ih _ h
            exact ⟨this.1, List.mem_cons_of_mem _ this.2⟩
          · rw [if_neg h3] at h
            by_cases h4 : q = "_featureProjection" ∨ q = "featureProjection" ∨
                q = "featureprojection" ∨ q = "_featureprojection" ∨
                q = "feature-projection" ∨ q = "feature_projection" ∨
                q = "_feature_projection"
            · rw [if_pos h4] at h
              have := ih _ h
              exact ⟨this.1, List.mem_cons_of_mem _ this.2⟩
            · rw [if_neg h4] at h
              by_cases h5 : q = "_vector" ∨ q = "vector"
              · rw [if_pos h5] at h
                have := ih _ h
                exact ⟨this.1, List.mem_cons_of_mem _ this.2⟩
              · rw [if_neg h5] at h
                have hq : q = p := by
                  have := h
                  simp only [Except.error.injEq] at this
                  exact this
                subst hq
                refine ⟨?_, List.mem_cons_self _ _⟩
                intro hmem
                simp only [recognizedIncludeStrings, List.mem_cons,
                  List.not_mem_nil, or_false] at hmem
                rcases hmem with hh | hh | hh | hh | hh | hh | hh | hh | hh | hh |
                  hh | hh | hh | hh | hh | hh | hh | hh | hh | hh <;> simp_all
  exact hgen (splitComma s) {} herr

/-- Witness for C7 (amended): a string of two recognized spellings parses
successfully. -/
theorem parseIncludeParam_ok_iff_witness :
    ∃ o, parseIncludeParam (some "classification,_vector") = .ok o := by
  exact (parseIncludeParam_ok_iff.1 "classification,_vector").mpr (by decide)

/-- Claim C9 (confirmed): in any successful parse of the include parameter
the RefMeta flag equals the Classification flag: requesting classification
always enables RefMeta, no value enables Classification without RefMeta,
and no standalone spelling can set RefMeta alone. -/
theorem parseIncludeParam_refMeta_iff_classification :
    ∀ (inc : Option String) (out : UnderscoreProperties),
      parseIncludeParam inc = .ok out → out.refMeta = out.classification := by
  intro inc out h
  cases inc with
  | none =>
    simp only [parseIncludeParam, Except.ok.injEq] at h
    rw [← h]
  | some s =>
    exact parseIncludeParts_refMeta_inv (splitComma s) {} out rfl h

/-- Witness for C9: the underscored classification spelling parses with
both flags set. -/
theorem parseIncludeParam_refMeta_iff_classification_witness :
    ∃ out, parseIncludeParam (some "_classification") = .ok out ∧
      out.refMeta = out.classification ∧ out.classification = true := by
  refine ⟨{ classification := true, refMeta := true }, rfl, ?_, rfl⟩
  exact parseIncludeParam_refMeta_iff_classification (some "_classification") _ rfl

/-- Claim C10 (confirmed): every successful things or actions list response
carries TotalResults equal to the length of the returned list. -/
theorem listHandlers_totalResults :
    ∀ (env : RestEnv) (inc : Option String) (meta : Option Bool) (limit : Option Int),
      (∀ resp, getThings env inc meta limit = .ok resp →
        resp.totalResults = resp.things.length) ∧
      (∀ resp, getActions env inc meta limit = .ok resp →
        resp.totalResults = resp.actions.length) := by
  intro env inc meta limit
  constructor
  · intro resp h
    unfold getThings at h
    cases hp : parseIncludeParam inc with
    | error e => rw [hp] at h; exact absurd h (by simp)
    | ok under0 =>
      rw [hp] at h
      simp only at h
      cases hm : env.managerGetThings limit
          (if derefBool meta then
            { under0 with classification := true, refMeta := true, vector := true }
           else under0) with
      | error ek =>
        rw [hm] at h
        cases ek <;> exact absurd h (by simp)
      | ok list =>
        rw [hm] at h
        simp only [ThingsListResponder.ok.injEq] at h
        rw [← h]
  · intro resp h
    unfold getActions at h
    cases hp : parseIncludeParam inc with
    | error e => rw [hp] at h; exact absurd h (by simp)
    | ok under0 =>
      rw [hp] at h
      simp only at h
      cases hm : env.managerGetActions limit
          (if derefBool meta then
            { under0 with classification := true, refMeta := true, vector := true }
           else under0) with
      | error ek =>
        rw [hm] at h
        cases ek <;> exact absurd h (by simp)
      | ok list =>
        rw [hm] at h
        simp only [ActionsListResponder.ok.injEq] at h
        rw [← h]

/-- Witness for C10: a manager returning two things yields TotalResults 2,
the length of the returned list. -/
theorem listHandlers_totalResults_witness :
    (getThings restEnvW none none none
        = .ok { things := [⟨1, 0⟩, ⟨2, 0⟩], totalResults := 2, deprecationsLen := 0 }) ∧
    (2 : Nat) = ([(⟨1, 0⟩ : Thing), ⟨2, 0⟩] : List Thing).length := by
  refine ⟨rfl, ?_⟩
  exact (listHandlers_totalResults restEnvW none none none).1
    { things := [⟨1, 0⟩, ⟨2, 0⟩], totalResults := 2, deprecationsLen := 0 } rfl

end Weaviate

